import Mathlib

/-!
Verification development for the MT5 account breach-evaluation engine of
`mongo_db.py`.  The Python code is shallowly embedded: floats become
rationals, unix timestamps become integers, the untyped chart points become
a small algebraic datatype, and the mutable accumulator loops become
structural folds.  Display-only dictionary fields that nothing downstream
reads are omitted and noted where they are dropped.
-/

attribute [local semireducible] Rat.add Rat.mul Rat.sub Rat.inv

namespace MT5

/-- The `y` payload of a raw balance-chart point: either a scalar or a list of
(possibly null) numbers, mirroring the untyped JSON the Python code receives. -/
inductive YVal where
  | scalar : Option ℚ → YVal
  | arr : List (Option ℚ) → YVal
deriving DecidableEq

/-- A raw balance-chart point `{x: unix-seconds, y: [balance, equity]}`;
`y = none` models a point carrying no `y` key at all. -/
structure RawPoint where
  x : Int
  y : Option YVal
deriving DecidableEq

/-- A parsed sample `{'timestamp': ts, 'balance': b, 'equity': e}`. -/
structure Sample where
  ts : Int
  balance : ℚ
  equity : ℚ
deriving DecidableEq

/-- UTC calendar day of a unix timestamp, as days since the epoch
(`datetime.fromtimestamp(x, tz=timezone.utc).date()` is floor division). -/
def dayKey (ts : Int) : Int := ts.fdiv 86400

/-- Midnight UTC opening calendar day `d`. -/
def midnight (d : Int) : Int := d * 86400

/-- `point.get("y", [0, 0])`: a missing `y` defaults to the list `[0, 0]`. -/
def yDefault (p : RawPoint) : YVal := p.y.getD (.arr [some 0, some 0])

/-- One pass of `_group_chart_by_day`'s loop body for a single point: a point
whose (defaulted) `y` is not a list of length at least 2 is skipped
(`continue`); otherwise it becomes a sample, nulls coercing to `0`
(`float(y_vals[i] or 0)`). -/
def parsePoint (p : RawPoint) : Option Sample :=
  match yDefault p with
  | .scalar _ => none
  | .arr l =>
      if 2 ≤ l.length then some ⟨p.x, (l.getD 0 none).getD 0, (l.getD 1 none).getD 0⟩
      else none

/-- The samples that survive grouping, in input order. -/
def validSamples (chart : List RawPoint) : List Sample := chart.filterMap parsePoint

/-- Timestamp order on samples, the key of the per-day sort
(`sort(key=lambda x: x['timestamp'])`). -/
def tsLE (a b : Sample) : Prop := a.ts ≤ b.ts

instance : DecidableRel tsLE := fun a b => Int.decLe a.ts b.ts

instance : IsTotal Sample tsLE := ⟨fun a b => Int.le_total a.ts b.ts⟩

instance : IsTrans Sample tsLE := ⟨fun _ _ _ h h' => le_trans h h'⟩

/-- `daily_data[d]` after the final sorting pass: the day's surviving samples in
input order, stably sorted by timestamp (Python's `list.sort` is stable, as is
insertion sort). -/
def dayBucket (chart : List RawPoint) (d : Int) : List Sample :=
  List.insertionSort tsLE ((validSamples chart).filter (fun s => decide (dayKey s.ts = d)))

/-- Key insertion order of the Python dict `daily_data`: first occurrence of
each day key among the surviving samples. -/
def dayKeys (chart : List RawPoint) : List Int :=
  ((validSamples chart).map (fun s => dayKey s.ts)).dedup

/-- `sorted(daily_data.keys())`. -/
def sortedDates (chart : List RawPoint) : List Int :=
  List.insertionSort (fun a b : Int => a ≤ b) (dayKeys chart)

/-- Python `min(iterable, default=dflt)`. -/
def pyMin (l : List ℚ) (dflt : ℚ) : ℚ :=
  match l with
  | [] => dflt
  | a :: t => t.foldl min a

/-- Truthiness fallback `a if a else b` on an optional float: `None` and `0.0`
are both falsy. -/
def falsyOr (a : Option ℚ) (b : ℚ) : ℚ :=
  match a with
  | none => b
  | some v => if v = 0 then b else v

/-- The breach-detail dictionary built by `_check_daily_loss_limit` when a day
breaches (the fields read downstream; `breach_percent` is display-only). -/
structure DLBreach where
  breachDate : Int
  startBalance : ℚ
  startEquity : ℚ
  referenceValue : ℚ
  threshold : ℚ
  worstValue : ℚ
  breachAmount : ℚ
deriving DecidableEq

/-- Mutable loop state of `_check_daily_loss_limit`: worst breach so far and
the previous day's closing values. -/
structure DLState where
  worst : Option ℚ
  details : Option DLBreach
  prevBal : Option ℚ
  prevEq : Option ℚ
deriving DecidableEq

/-- `worst_breach is None or breach_amount > worst_breach`. -/
def betterBreach (worst : Option ℚ) (amount : ℚ) : Bool :=
  match worst with
  | none => true
  | some w => decide (w < amount)

/-- Start-of-day balance and equity: index 0 uses the initial balance when
truthy and positive, else the day's first point; later days use the previous
day's close, falling back (Python truthiness) to the day's first point when
the stored close is `0.0`. -/
def startOfDay (initial : Option ℚ) (first : Bool) (prevBal prevEq : Option ℚ)
    (p0 : Sample) : ℚ × ℚ :=
  if first then
    match initial with
    | some ib => if 0 < ib then (ib, ib) else (p0.balance, p0.equity)
    | none => (p0.balance, p0.equity)
  else
    (falsyOr prevBal p0.balance, falsyOr prevEq p0.equity)

/-- One day of `_check_daily_loss_limit`'s date loop. -/
def dlDay (limit : ℚ) (initial : Option ℚ) (first : Bool) (st : DLState) (d : Int)
    (pts : List Sample) : DLState :=
  match pts with
  | [] => st
  | p0 :: rest =>
    let lastPt := List.getLast (p0 :: rest) (List.cons_ne_nil _ _)
    let se := startOfDay initial first st.prevBal st.prevEq p0
    let ref := max se.1 se.2
    if ref ≤ 0 then
      { st with prevBal := some lastPt.balance, prevEq := some lastPt.equity }
    else
      let threshold := ref * (1 - limit)
      let minEquity := pyMin ((p0 :: rest).map Sample.equity) 0
      let minBalance := pyMin ((p0 :: rest).map Sample.balance) 0
      let worstValue := min minEquity minBalance
      let st1 :=
        if worstValue < threshold then
          let amount := threshold - worstValue
          if betterBreach st.worst amount then
            { st with worst := some amount,
                      details := some ⟨d, se.1, se.2, ref, threshold, worstValue, amount⟩ }
          else st
        else st
      { st1 with prevBal := some lastPt.balance, prevEq := some lastPt.equity }

/-- The date loop of `_check_daily_loss_limit`; `first` marks index `i = 0`. -/
def dlRun (limit : ℚ) (initial : Option ℚ) (chart : List RawPoint) :
    List Int → Bool → DLState → DLState
  | [], _, st => st
  | d :: ds, first, st =>
      dlRun limit initial chart ds false (dlDay limit initial first st d (dayBucket chart d))

/-- `_check_daily_loss_limit`: `(is_breached, worst-breach details)`.  The
display-only entries of the returned dict (`total_days_checked`,
`current_*`) are omitted; nothing the claims touch reads them. -/
def checkDailyLossLimit (chart : List RawPoint) (limit : ℚ) (initial : Option ℚ) :
    Bool × Option DLBreach :=
  if chart = [] then (false, none)
  else
    let dates := sortedDates chart
    if dates = [] then (false, none)
    else
      let st := dlRun limit initial chart dates true ⟨none, none, none, none⟩
      (st.details.isSome, st.details)

/-- The C1 failing input: day 0 closes with balance = equity = 0, and day 1's
only sample sits at t = 90000, after day 1's midnight (86400). -/
def c1Chart : List RawPoint :=
  [⟨0, some (.arr [some 0, some 0])⟩, ⟨90000, some (.arr [some 100, some 50])⟩]

/-- Claim C1, evaluated at the failing input.  The daily-loss check reports a
breach whose start-of-day reference value is 100, although every sample
timestamped at or before day 1's midnight has balance and equity 0: because
the previous close is `0.0` (falsy), the code fell back to day 1's own first
sample (t = 90000 > 86400), contradicting the no-look-ahead policy. -/
theorem c1_lookahead_failing_input :
    (checkDailyLossLimit c1Chart (1/25) (some 0)).1 = true ∧
    ((checkDailyLossLimit c1Chart (1/25) (some 0)).2.map DLBreach.referenceValue) = some 100 ∧
    (∀ s ∈ validSamples c1Chart, s.ts ≤ midnight 1 → s.balance = 0 ∧ s.equity = 0) ∧
    (∃ s ∈ validSamples c1Chart, midnight 1 < s.ts ∧ s.balance = 100) := by
  decide

/-- The first-breaching-sample record (`breach_point`) of `_check_daily_drawdown`. -/
structure DDBreachPt where
  equityAtBreach : ℚ
  peakAtBreach : ℚ
  thresholdAtBreach : ℚ
  ts : Int
deriving DecidableEq

/-- The breach-detail dictionary built by `_check_daily_drawdown` for the worst
breaching day. -/
structure DDBreach where
  breachDate : Int
  peakEquity : ℚ
  threshold : ℚ
  equityAtBreach : ℚ
  breachAmount : ℚ
  maxDrawdownPct : ℚ
deriving DecidableEq

/-- Mutable loop state of `_check_daily_drawdown`. -/
structure DDState where
  worst : Option ℚ
  details : Option DDBreach
  prevBal : Option ℚ
  prevEq : Option ℚ
deriving DecidableEq

/-- `if equity > peak_equity: peak_equity = equity` — the watermark only moves up. -/
def peakUp (peak e : ℚ) : ℚ := if peak < e then e else peak

/-- The `max_drawdown_pct` update of `_check_daily_drawdown`'s inner loop. -/
def mddUp (peak1 e mdd : ℚ) : ℚ :=
  if 0 < peak1 then
    (if mdd < (peak1 - e) / peak1 then (peak1 - e) / peak1 else mdd)
  else mdd

/-- The per-sample scan of `_check_daily_drawdown`'s inner loop: raise the
high-watermark when equity exceeds it, recompute the threshold from the
watermark, record the first breaching sample, and track the maximum intraday
drawdown fraction.  Returns `(peak, breach point, max drawdown)`. -/
def ddScan (limit : ℚ) : List Sample → ℚ → Option DDBreachPt → ℚ → ℚ × Option DDBreachPt × ℚ
  | [], peak, bp, mdd => (peak, bp, mdd)
  | p :: rest, peak, bp, mdd =>
      ddScan limit rest (peakUp peak p.equity)
        (if p.equity < peakUp peak p.equity * (1 - limit) ∧ bp = none then
          some ⟨p.equity, peakUp peak p.equity, peakUp peak p.equity * (1 - limit), p.ts⟩
        else bp)
        (mddUp (peakUp peak p.equity) p.equity mdd)

/-- One day of `_check_daily_drawdown`'s date loop. -/
def ddDay (limit : ℚ) (initial : Option ℚ) (first : Bool) (st : DDState) (d : Int)
    (pts : List Sample) : DDState :=
  match pts with
  | [] => st
  | p0 :: rest =>
    let lastPt := List.getLast (p0 :: rest) (List.cons_ne_nil _ _)
    let se := startOfDay initial first st.prevBal st.prevEq p0
    let peak0 := max se.1 se.2
    if peak0 ≤ 0 then
      { st with prevBal := some lastPt.balance, prevEq := some lastPt.equity }
    else
      let scan := ddScan limit (p0 :: rest) peak0 none 0
      let st1 :=
        match scan.2.1 with
        | some b =>
            let amount := b.thresholdAtBreach - b.equityAtBreach
            if betterBreach st.worst amount then
              { st with worst := some amount,
                        details := some ⟨d, b.peakAtBreach, b.thresholdAtBreach,
                                         b.equityAtBreach, amount, scan.2.2⟩ }
            else st
        | none => st
      { st1 with prevBal := some lastPt.balance, prevEq := some lastPt.equity }

/-- The date loop of `_check_daily_drawdown`; `first` marks index `i = 0`. -/
def ddRun (limit : ℚ) (initial : Option ℚ) (chart : List RawPoint) :
    List Int → Bool → DDState → DDState
  | [], _, st => st
  | d :: ds, first, st =>
      ddRun limit initial chart ds false (ddDay limit initial first st d (dayBucket chart d))

/-- `_check_daily_drawdown`: `(is_breached, worst-breach details)`.  As for the
daily-loss check, display-only entries of the returned dict are omitted. -/
def checkDailyDrawdown (chart : List RawPoint) (limit : ℚ) (initial : Option ℚ) :
    Bool × Option DDBreach :=
  if chart = [] then (false, none)
  else
    let dates := sortedDates chart
    if dates = [] then (false, none)
    else
      let st := ddRun limit initial chart dates true ⟨none, none, none, none⟩
      (st.details.isSome, st.details)

/-- The rolling high-watermark reached after scanning a list of samples,
starting from `peak` (the same update rule `ddScan` applies). -/
def runPeak (peak : ℚ) : List Sample → ℚ
  | [] => peak
  | p :: rest => runPeak (peakUp peak p.equity) rest

/-- Once the first breaching sample is recorded, the scan never replaces it. -/
theorem ddScan_some (limit : ℚ) (pts : List Sample) (peak mdd : ℚ) (b : DDBreachPt) :
    (ddScan limit pts peak (some b) mdd).2.1 = some b := by
  induction pts generalizing peak mdd with
  | nil => rfl
  | cons p rest ih => simpa [ddScan] using ih _ _

/-- The C2 input: one day, initial balance 100000, equity rises to 102000 and
then falls to 97000 — above the midnight-anchored bound 96000, but below the
watermark-anchored bound 97920. -/
def c2Chart : List RawPoint :=
  [⟨0, some (.arr [some 100000, some 100000])⟩,
   ⟨3600, some (.arr [some 100000, some 102000])⟩,
   ⟨7200, some (.arr [some 100000, some 97000])⟩]

/-- Claim C2 is false on the code: the daily-drawdown check reports a breach
with threshold 97920 = 102000 · (1 − 0.04), anchored to the intraday peak, not
the constant 96000 = midnightReference · (1 − 0.04); indeed every sample's
equity stays at or above 96000, so a fixed midnight-anchored threshold would
report no breach at all. -/
theorem c2_counterexample :
    (checkDailyDrawdown c2Chart (1/25) (some 100000)).1 = true ∧
    ((checkDailyDrawdown c2Chart (1/25) (some 100000)).2.map DDBreach.threshold) = some 97920 ∧
    (97920 : ℚ) ≠ 100000 * (1 - 1/25) ∧
    (∀ s ∈ validSamples c2Chart, 100000 * (1 - 1/25) ≤ s.equity) := by
  decide

/-- Claim C2 (amended): the threshold the daily-drawdown check applies at the
breaching sample equals the rolling peak times `(1 - dailyLossLimit)`, where
the rolling peak is the running maximum of the day's start reference and the
equities scanned so far — intraday peaks raise the threshold; the
high-watermark anchors the breach test rather than being diagnostics-only. -/
theorem c2_threshold_tracks_peak (limit : ℚ) (pts : List Sample) (peak0 mdd : ℚ)
    (b : DDBreachPt) (h : (ddScan limit pts peak0 none mdd).2.1 = some b) :
    b.thresholdAtBreach = b.peakAtBreach * (1 - limit) ∧
    ∃ pre p post, pts = pre ++ p :: post ∧ b.equityAtBreach = p.equity ∧
      b.peakAtBreach = runPeak peak0 (pre ++ [p]) ∧
      b.equityAtBreach < b.thresholdAtBreach := by
  induction pts generalizing peak0 mdd with
  | nil => exact absurd h (by simp [ddScan])
  | cons p rest ih =>
      simp only [ddScan] at h
      by_cases hc : p.equity < peakUp peak0 p.equity * (1 - limit)
      · rw [if_pos (And.intro hc trivial), ddScan_some] at h
        obtain rfl : b =
            ⟨p.equity, peakUp peak0 p.equity, peakUp peak0 p.equity * (1 - limit), p.ts⟩ :=
          (Option.some_injective _ h).symm
        exact ⟨rfl, [], p, rest, rfl, rfl, rfl, hc⟩
      · rw [if_neg (fun hand => hc hand.1)] at h
        obtain ⟨h1, pre, q, post, hdec, he, hp, hlt⟩ := ih _ _ h
        refine ⟨h1, p :: pre, q, post, by rw [hdec, List.cons_append], he, ?_, hlt⟩
        simpa only [List.cons_append, runPeak] using hp

/-- Witness for the amended C2 theorem at the C2 input: the breach point there
is equity 97000 against threshold 97920 anchored to peak 102000. -/
theorem c2_threshold_tracks_peak_witness :
    (97920 : ℚ) = 102000 * (1 - 1/25) ∧ (97000 : ℚ) < 97920 := by
  have h : (ddScan (1/25) (dayBucket c2Chart 0) 100000 none 0).2.1 =
      some ⟨97000, 102000, 97920, 7200⟩ := by decide
  have hmain := c2_threshold_tracks_peak (1/25) (dayBucket c2Chart 0) 100000 0 _ h
  obtain ⟨h1, pre, q, post, _, _, _, hlt⟩ := hmain
  exact ⟨h1, hlt⟩

/-- The per-point equity extraction of `_check_inactivity_breach`:
`point.get("y", [0, 0])[1] if isinstance(point.get("y"), list) else
point.get("y", 0)`.  (On a present list shorter than 2, or a null scalar,
Python would raise; the claims are stated on well-formed points, where the
defaults below are never consulted.) -/
def inactYVal (p : RawPoint) : ℚ :=
  match p.y with
  | some (.arr l) => (l.getD 1 none).getD 0
  | some (.scalar v) => v.getD 0
  | none => 0

/-- Day keys of `_check_inactivity_breach`'s `daily_equity` dict in insertion
order (first occurrence); unlike the Day Grouper, this loop keeps every point. -/
def inactDayKeys (chart : List RawPoint) : List Int :=
  (chart.map (fun p => dayKey p.x)).dedup

/-- `daily_equity[d]`: because of `if day_key not in daily_equity`, the first
point of day `d` in input order sets the day's equity. -/
def inactEquity (chart : List RawPoint) (d : Int) : ℚ :=
  match chart.find? (fun p => decide (dayKey p.x = d)) with
  | some p => inactYVal p
  | none => 0

/-- `sorted(daily_equity.keys())`. -/
def inactSortedDays (chart : List RawPoint) : List Int :=
  List.insertionSort (fun a b : Int => a ≤ b) (inactDayKeys chart)

/-- The per-day equity sequence the inactivity loop walks, in ascending day
order. -/
def inactEquities (chart : List RawPoint) : List ℚ :=
  (inactSortedDays chart).map (inactEquity chart)

/-- Two consecutive daily equities count as unchanged when they differ by less
than the absolute tolerance 0.01 (`abs(curr_equity - prev_equity) < 0.01`). -/
def Near (a b : ℚ) : Prop := |b - a| < 1/100

instance : DecidableRel Near :=
  fun a b => inferInstanceAs (Decidable (|b - a| < 1/100))

/-- The `max_consecutive` / `current_consecutive` fold of
`_check_inactivity_breach`, walking the equities after the first; the trailing
`max(max_consecutive, current_consecutive)` is the `[]` case. -/
def runFold : ℚ → Nat → Nat → List ℚ → Nat
  | _, maxc, cur, [] => max maxc cur
  | prev, maxc, cur, e :: t =>
      if Near prev e then runFold e maxc (cur + 1) t
      else runFold e (max maxc cur) 1 t

/-- `max_consecutive` over a day-equity list (`current_consecutive` starts at 1). -/
def maxConsec : List ℚ → Nat
  | [] => 0
  | e :: t => runFold e 0 1 t

/-- `_check_inactivity_breach`: `(is_breached, consecutive_days_without_change)`. -/
def checkInactivity (chart : List RawPoint) (maxDays : Nat) : Bool × Nat :=
  if chart.length < 2 then (false, 0)
  else if (inactSortedDays chart).length < 2 then (false, 0)
  else (decide (maxDays < maxConsec (inactEquities chart)), maxConsec (inactEquities chart))

/-- A chart point whose `y` is a genuine list with at least two non-null
numeric components — the domain on which the Python accessors are total. -/
def wfPoint (p : RawPoint) : Bool :=
  match p.y with
  | some (.arr (some _ :: some _ :: _)) => true
  | _ => false

/-- The C4 failing input: one UTC day holding two samples; the later sample
(t = 7200) carries equity 200, the earlier one equity 100. -/
def c4Chart : List RawPoint :=
  [⟨3600, some (.arr [some 100, some 100])⟩, ⟨7200, some (.arr [some 100, some 200])⟩]

/-- Claim C4, evaluated at the failing input.  The Day Grouper's ascending
order for the day ends with equity 200, but the inactivity detector's per-day
value is 100 — the first sample encountered in input order, not the last
sample of the day (`if day_key not in daily_equity` stores the first hit,
despite the comment "Store the last equity value for each day").  Reversing
the input order changes the value, so it cannot be the last-sample equity
for every input order. -/
theorem c4_inactivity_uses_first_sample :
    inactEquities c4Chart = [100] ∧
    (dayBucket c4Chart 0).map Sample.equity = [100, 200] ∧
    inactEquities (c4Chart.reverse) = [200] := by
  decide

/-- All contiguous sublists of a day-equity list. -/
def allInfixes (es : List ℚ) : List (List ℚ) := (es.tails.map List.inits).flatten

/-- Boolean chain check: all adjacent pairs are `Near`. -/
def chainB : List ℚ → Bool
  | [] => true
  | [_] => true
  | a :: b :: t => decide (Near a b) && chainB (b :: t)

theorem chainB_iff : ∀ l : List ℚ, chainB l = true ↔ List.Chain' Near l
  | [] => by simp [chainB]
  | [a] => by simp [chainB]
  | a :: b :: t => by
      rw [chainB, Bool.and_eq_true, decide_eq_true_eq, List.chain'_cons, chainB_iff (b :: t)]

/-- Spec-side longest run: the greatest length of a contiguous block of days
whose adjacent equities all differ by less than the tolerance. -/
def specLongestRun (es : List ℚ) : Nat :=
  (((allInfixes es).filter chainB).map List.length).foldr max 0

theorem mem_allInfixes {l es : List ℚ} : l ∈ allInfixes es ↔ l <:+: es := by
  simp only [allInfixes, List.mem_flatten, List.mem_map]
  constructor
  · rintro ⟨L, ⟨t, ht, rfl⟩, hl⟩
    exact List.infix_iff_prefix_suffix.2
      ⟨t, (List.mem_inits _ _).1 hl, (List.mem_tails _ _).1 ht⟩
  · intro h
    obtain ⟨t, hp, hs⟩ := List.infix_iff_prefix_suffix.1 h
    exact ⟨t.inits, ⟨t, (List.mem_tails _ _).2 hs, rfl⟩, (List.mem_inits _ _).2 hp⟩

theorem le_foldr_max {n : Nat} {L : List Nat} (h : n ∈ L) : n ≤ L.foldr max 0 := by
  induction L with
  | nil => cases h
  | cons a t ih =>
      rcases List.mem_cons.1 h with rfl | h
      · exact le_max_left _ _
      · exact le_trans (ih h) (le_max_right _ _)

theorem foldr_max_le {L : List Nat} {n : Nat} (h : ∀ x ∈ L, x ≤ n) : L.foldr max 0 ≤ n := by
  induction L with
  | nil => exact Nat.zero_le n
  | cons a t ih => exact max_le (h a (.head _)) (ih fun x hx => h x (.tail _ hx))

theorem le_runFold_maxc (t : List ℚ) : ∀ (prev : ℚ) (maxc cur : Nat),
    maxc ≤ runFold prev maxc cur t := by
  induction t with
  | nil => intro prev maxc cur; exact le_max_left _ _
  | cons e t ih =>
      intro prev maxc cur
      rw [runFold]
      split
      · exact ih e maxc (cur + 1)
      · exact le_trans (le_max_left maxc cur) (ih e (max maxc cur) 1)

theorem le_runFold_cur (t : List ℚ) : ∀ (prev : ℚ) (maxc cur : Nat),
    cur ≤ runFold prev maxc cur t := by
  induction t with
  | nil => intro prev maxc cur; exact le_max_right _ _
  | cons e t ih =>
      intro prev maxc cur
      rw [runFold]
      split
      · exact le_trans (Nat.le_succ cur) (ih e maxc (cur + 1))
      · exact le_trans (le_max_right maxc cur) (le_runFold_maxc t e (max maxc cur) 1)

theorem runFold_mono (t : List ℚ) : ∀ (prev : ℚ) (maxc maxc' cur cur' : Nat),
    maxc ≤ maxc' → cur ≤ cur' → runFold prev maxc cur t ≤ runFold prev maxc' cur' t := by
  induction t with
  | nil => intro prev maxc maxc' cur cur' hm hc; exact max_le_max hm hc
  | cons e t ih =>
      intro prev maxc maxc' cur cur' hm hc
      rw [runFold, runFold]
      by_cases hne : Near prev e
      · rw [if_pos hne, if_pos hne]
        exact ih e maxc maxc' (cur + 1) (cur' + 1) hm (Nat.succ_le_succ hc)
      · rw [if_neg hne, if_neg hne]
        exact ih e (max maxc cur) (max maxc' cur') 1 1 (max_le_max hm hc) le_rfl

theorem maxConsec_cons_le (e : ℚ) (es : List ℚ) : maxConsec es ≤ maxConsec (e :: es) := by
  cases es with
  | nil => exact Nat.zero_le _
  | cons f t =>
      show runFold f 0 1 t ≤ runFold e 0 1 (f :: t)
      rw [runFold]
      split
      · exact runFold_mono t f 0 0 1 2 le_rfl (by omega)
      · exact runFold_mono t f 0 (max 0 1) 1 1 (Nat.zero_le _) le_rfl

theorem maxConsec_suffix {t es : List ℚ} (h : t <:+ es) : maxConsec t ≤ maxConsec es := by
  obtain ⟨pre, rfl⟩ := h
  induction pre with
  | nil => exact le_rfl
  | cons a pre ih => exact le_trans ih (maxConsec_cons_le a (pre ++ t))

theorem runFold_prefix_chain (t : List ℚ) : ∀ (prev : ℚ) (maxc cur : Nat) (l : List ℚ),
    List.Chain' Near (prev :: l) → l <+: t → cur + l.length ≤ runFold prev maxc cur t := by
  induction t with
  | nil =>
      intro prev maxc cur l hch hpre
      obtain rfl : l = [] := List.prefix_nil.1 hpre
      simp only [List.length_nil, Nat.add_zero, runFold]
      exact le_max_right maxc cur
  | cons e t ih =>
      intro prev maxc cur l hch hpre
      cases l with
      | nil => simpa using le_runFold_cur (e :: t) prev maxc cur
      | cons x l' =>
          obtain ⟨hx, hpre'⟩ : x = e ∧ l' <+: t := by
            obtain ⟨r, hr⟩ := hpre
            injection hr with h1 h2
            exact ⟨h1, ⟨r, h2⟩⟩
          subst hx
          have hne : Near prev x := (List.chain'_cons.1 hch).1
          have hch' : List.Chain' Near (x :: l') := (List.chain'_cons.1 hch).2
          rw [runFold, if_pos hne]
          have hle := ih x maxc (cur + 1) l' hch' hpre'
          have harith : cur + (x :: l').length = (cur + 1) + l'.length := by
            simp only [List.length_cons]
            omega
          rw [harith]
          exact hle

theorem chain_infix_le_maxConsec {l es : List ℚ} (hinf : l <:+: es)
    (hch : List.Chain' Near l) : l.length ≤ maxConsec es := by
  obtain ⟨t, hpre, hsuf⟩ := List.infix_iff_prefix_suffix.1 hinf
  refine le_trans ?_ (maxConsec_suffix hsuf)
  cases l with
  | nil => exact Nat.zero_le _
  | cons x l' =>
      cases t with
      | nil => exact absurd (List.prefix_nil.1 hpre) (by simp)
      | cons y t' =>
          obtain ⟨hx, hpre'⟩ : x = y ∧ l' <+: t' := by
            obtain ⟨r, hr⟩ := hpre
            injection hr with h1 h2
            exact ⟨h1, ⟨r, h2⟩⟩
          subst hx
          have hle := runFold_prefix_chain t' x 0 1 l' hch hpre'
          simpa [maxConsec, Nat.add_comm] using hle

theorem runFold_attained (t : List ℚ) : ∀ (prev : ℚ) (maxc cur : Nat),
    runFold prev maxc cur t = maxc ∨
    (∃ l, l <+: t ∧ List.Chain' Near (prev :: l) ∧ runFold prev maxc cur t = cur + l.length) ∨
    (∃ l, l <:+: t ∧ List.Chain' Near l ∧ runFold prev maxc cur t = l.length) := by
  induction t with
  | nil =>
      intro prev maxc cur
      rcases max_choice maxc cur with h | h
      · left
        rw [runFold, h]
      · right; left
        exact ⟨[], List.nil_prefix, List.chain'_singleton prev, by rw [runFold, h]; simp⟩
  | cons e t ih =>
      intro prev maxc cur
      rw [runFold]
      by_cases hne : Near prev e
      · rw [if_pos hne]
        rcases ih e maxc (cur + 1) with h | ⟨l, hl, hch, heq⟩ | ⟨l, hinf, hch, heq⟩
        · exact Or.inl h
        · refine Or.inr (Or.inl ⟨e :: l, ?_, ?_, ?_⟩)
          · exact List.cons_prefix_cons.2 ⟨rfl, hl⟩
          · exact List.chain'_cons.2 ⟨hne, hch⟩
          · rw [heq]; simp; omega
        · exact Or.inr (Or.inr ⟨l, hinf.trans (List.suffix_cons e t).isInfix, hch, heq⟩)
      · rw [if_neg hne]
        rcases ih e (max maxc cur) 1 with h | ⟨l, hl, hch, heq⟩ | ⟨l, hinf, hch, heq⟩
        · rcases max_choice maxc cur with hm | hm
          · left; rw [h, hm]
          · right; left
            exact ⟨[], List.nil_prefix, List.chain'_singleton prev, by rw [h, hm]; simp⟩
        · refine Or.inr (Or.inr ⟨e :: l, ?_, hch, ?_⟩)
          · exact (List.cons_prefix_cons.2 ⟨rfl, hl⟩).isInfix
          · rw [heq]; simp; omega
        · exact Or.inr (Or.inr ⟨l, hinf.trans (List.suffix_cons e t).isInfix, hch, heq⟩)

theorem maxConsec_eq_specLongestRun (es : List ℚ) : maxConsec es = specLongestRun es := by
  apply le_antisymm
  · cases es with
    | nil => exact Nat.zero_le _
    | cons e t =>
        have hword : ∀ l : List ℚ, l <:+: e :: t → List.Chain' Near l →
            l.length ≤ specLongestRun (e :: t) := by
          intro l hinf hch
          refine le_foldr_max (List.mem_map_of_mem List.length (List.mem_filter.2 ⟨?_, ?_⟩))
          · exact mem_allInfixes.2 hinf
          · exact (chainB_iff l).2 hch
        rcases runFold_attained t e 0 1 with h | ⟨l, hl, hch, heq⟩ | ⟨l, hinf, hch, heq⟩
        · show runFold e 0 1 t ≤ _
          rw [h]
          exact Nat.zero_le _
        · show runFold e 0 1 t ≤ _
          rw [heq]
          have := hword (e :: l) (List.cons_prefix_cons.2 ⟨rfl, hl⟩).isInfix hch
          simpa [Nat.add_comm] using this
        · show runFold e 0 1 t ≤ _
          rw [heq]
          exact hword l (hinf.trans (List.suffix_cons e t).isInfix) hch
  · apply foldr_max_le
    intro x hx
    obtain ⟨l, hlmem, rfl⟩ := List.mem_map.1 hx
    obtain ⟨hmem, hchb⟩ := List.mem_filter.1 hlmem
    exact chain_infix_le_maxConsec (mem_allInfixes.1 hmem) ((chainB_iff l).1 hchb)

/-- Claim C6: the inactivity detector breaches exactly when the chart spans at
least two distinct UTC days and the longest run of adjacent days whose per-day
equities differ by less than the absolute tolerance 0.01 strictly exceeds
`maxInactivityDays`; a longest run equal to the limit does not breach, and
fewer than two distinct days never breaches. -/
theorem c6_inactivity_longest_run (chart : List RawPoint) (maxDays : Nat)
    (_hwf : ∀ p ∈ chart, wfPoint p = true) :
    (checkInactivity chart maxDays).1 = true ↔
      2 ≤ (inactSortedDays chart).length ∧
        maxDays < specLongestRun (inactEquities chart) := by
  have hdays : (inactSortedDays chart).length ≤ chart.length := by
    have h1 : (inactSortedDays chart).length = (inactDayKeys chart).length :=
      (List.perm_insertionSort _ _).length_eq
    have h2 : (inactDayKeys chart).length ≤ (chart.map (fun p => dayKey p.x)).length :=
      (List.dedup_sublist _).length_le
    rw [h1]
    simpa using h2
  unfold checkInactivity
  split_ifs with h1 h2
  · refine iff_of_false (by simp) ?_
    rintro ⟨h2d, -⟩
    omega
  · refine iff_of_false (by simp) ?_
    rintro ⟨h2d, -⟩
    omega
  · show decide (maxDays < maxConsec (inactEquities chart)) = true ↔ _
    simp only [decide_eq_true_eq]
    rw [maxConsec_eq_specLongestRun]
    exact ⟨fun h => ⟨by omega, h⟩, fun h => h.2⟩

/-- Three flat days of equity 5, used to witness C6. -/
def c6Chart : List RawPoint :=
  [⟨0, some (.arr [some 5, some 5])⟩, ⟨86400, some (.arr [some 5, some 5])⟩,
   ⟨172800, some (.arr [some 5, some 5])⟩]

/-- Witness for C6 at a concrete chart: three flat days against a limit of 1 —
the longest run is 3 > 1, so the detector reports a breach. -/
theorem c6_inactivity_longest_run_witness :
    (∀ p ∈ c6Chart, wfPoint p = true) ∧ (checkInactivity c6Chart 1).1 = true := by
  refine ⟨by decide, ?_⟩
  exact (c6_inactivity_longest_run c6Chart 1 (by decide)).2 ⟨by decide, by decide⟩

/-- Two chart points sharing a timestamp but not values. -/
def c5p1 : RawPoint := ⟨100, some (.arr [some 1, some 1])⟩

def c5p2 : RawPoint := ⟨100, some (.arr [some 2, some 2])⟩

/-- Claim C5 is false as stated: swapping two same-timestamp samples is a
permutation of the same sample multiset, yet the day bucket keeps them in
input order (the sort is stable), so the two bucket sequences differ. -/
theorem c5_counterexample :
    ([c5p1, c5p2] : List RawPoint).Perm [c5p2, c5p1] ∧
    dayBucket [c5p1, c5p2] 0 ≠ dayBucket [c5p2, c5p1] 0 :=
  ⟨List.Perm.swap c5p2 c5p1 [], by decide⟩

/-- Claim C5 (amended): two permutations of the same sample multiset produce
the same sorted date list always, and identical per-day bucket sequences
whenever the surviving samples carry pairwise distinct timestamps; with
duplicate timestamps inside a day the buckets may order the tied samples
differently (they still agree up to permutation). -/
theorem c5_grouper_order_independent (chart1 chart2 : List RawPoint)
    (hperm : chart1.Perm chart2)
    (hnd : ((validSamples chart1).map Sample.ts).Nodup) :
    sortedDates chart1 = sortedDates chart2 ∧
    ∀ d : Int, dayBucket chart1 d = dayBucket chart2 d := by
  have hvs : (validSamples chart1).Perm (validSamples chart2) :=
    hperm.filterMap parsePoint
  constructor
  · have hkeys : (dayKeys chart1).Perm (dayKeys chart2) := by
      unfold dayKeys
      exact (hvs.map (fun s => dayKey s.ts)).dedup
    have hp : (sortedDates chart1).Perm (sortedDates chart2) :=
      ((List.perm_insertionSort _ _).trans hkeys).trans
        (List.perm_insertionSort _ _).symm
    haveI : IsAntisymm Int (fun a b : Int => a ≤ b) := ⟨fun _ _ h1 h2 => le_antisymm h1 h2⟩
    exact List.eq_of_perm_of_sorted hp (List.sorted_insertionSort _ _)
      (List.sorted_insertionSort _ _)
  · intro d
    have hfil : ((validSamples chart1).filter (fun s => decide (dayKey s.ts = d))).Perm
        ((validSamples chart2).filter (fun s => decide (dayKey s.ts = d))) :=
      hvs.filter _
    have hbp : (dayBucket chart1 d).Perm (dayBucket chart2 d) :=
      ((List.perm_insertionSort _ _).trans hfil).trans (List.perm_insertionSort _ _).symm
    have hnd1 : ((dayBucket chart1 d).map Sample.ts).Nodup := by
      have hsub : ((validSamples chart1).filter (fun s => decide (dayKey s.ts = d))).Sublist
          (validSamples chart1) := List.filter_sublist _
      have : (((validSamples chart1).filter
          (fun s => decide (dayKey s.ts = d))).map Sample.ts).Nodup :=
        (hsub.map Sample.ts).nodup hnd
      exact this.perm ((List.perm_insertionSort _ _).map Sample.ts).symm
    have hnd2 : ((dayBucket chart2 d).map Sample.ts).Nodup :=
      hnd1.perm (hbp.map Sample.ts)
    have hstrict : ∀ l : List Sample, List.Sorted tsLE l → (l.map Sample.ts).Nodup →
        List.Sorted (fun a b : Sample => a.ts < b.ts) l := by
      intro l hs hn
      have hpne : l.Pairwise (fun a b => a.ts ≠ b.ts) := List.pairwise_map.1 hn
      exact (hs.and hpne).imp fun hab => lt_of_le_of_ne hab.1 hab.2
    haveI : IsAntisymm Sample (fun a b : Sample => a.ts < b.ts) :=
      ⟨fun a b h1 h2 => absurd (lt_trans h1 h2) (lt_irrefl _)⟩
    exact List.eq_of_perm_of_sorted hbp
      (hstrict _ (List.sorted_insertionSort _ _) hnd1)
      (hstrict _ (List.sorted_insertionSort _ _) hnd2)

/-- A two-day chart and its reversal, for the C5 witness. -/
def c5w1 : List RawPoint :=
  [⟨86400, some (.arr [some 3, some 4])⟩, ⟨0, some (.arr [some 1, some 2])⟩]

def c5w2 : List RawPoint :=
  [⟨0, some (.arr [some 1, some 2])⟩, ⟨86400, some (.arr [some 3, some 4])⟩]

/-- Witness for the amended C5 theorem: two orderings of the same two-sample
chart with distinct timestamps group identically. -/
theorem c5_grouper_order_independent_witness :
    sortedDates c5w1 = sortedDates c5w2 ∧ dayBucket c5w1 0 = dayBucket c5w2 0 := by
  have h := c5_grouper_order_independent c5w1 c5w2
    (List.Perm.swap _ _ []) (by decide)
  exact ⟨h.1, h.2 0⟩

theorem validSamples_filter (chart : List RawPoint) :
    validSamples (chart.filter (fun q => (parsePoint q).isSome)) = validSamples chart := by
  induction chart with
  | nil => rfl
  | cons q t ih =>
      unfold validSamples at ih ⊢
      rw [List.filter_cons]
      cases hq : parsePoint q with
      | none => simp [hq, List.filterMap_cons, ih]
      | some s => simp [hq, List.filterMap_cons, ih]

/-- Claim C8 is false as stated: a point with no balance-or-equity pair at all
(`y` key absent) is not dropped — `point.get("y", [0, 0])` substitutes
`[0, 0]`, and the point lands in its bucket with balance 0 and equity 0. -/
theorem c8_counterexample :
    parsePoint ⟨0, none⟩ = some ⟨0, 0, 0⟩ ∧
    dayBucket [⟨0, none⟩] 0 = [⟨0, 0, 0⟩] := by
  decide

/-- Claim C8 (amended): the Day Grouper silently drops exactly those samples
whose `y` is present but is not a list of at least two components; a sample
with `y` missing entirely is kept with balance and equity defaulted to 0.
Dropped points contribute to no bucket (removing them changes no bucket), and
grouping of the remainder always succeeds. -/
theorem c8_drop_semantics (p : RawPoint) (chart : List RawPoint) (d : Int) :
    (parsePoint p = none ↔
      (∃ v, p.y = some (.scalar v)) ∨ ∃ l, p.y = some (.arr l) ∧ l.length < 2) ∧
    (p.y = none → parsePoint p = some ⟨p.x, 0, 0⟩) ∧
    dayBucket chart d = dayBucket (chart.filter (fun q => (parsePoint q).isSome)) d := by
  refine ⟨?_, ?_, ?_⟩
  · cases hy : p.y with
    | none => simp [parsePoint, yDefault, hy]
    | some yv =>
        cases yv with
        | scalar v => simp [parsePoint, yDefault, hy]
        | arr l =>
            by_cases hl : 2 ≤ l.length
            · simp only [parsePoint, yDefault, hy, Option.getD_some, if_pos hl]
              constructor
              · intro hcontra
                cases hcontra
              · rintro (⟨v, hv⟩ | ⟨l', hl', hlen⟩)
                · cases hv
                · cases hl'
                  omega
            · simp only [parsePoint, yDefault, hy, Option.getD_some, if_neg hl]
              exact iff_of_true trivial (Or.inr ⟨l, rfl, by omega⟩)
  · intro hy
    simp [parsePoint, yDefault, hy]
  · show _ = List.insertionSort tsLE (List.filter _ (validSamples (chart.filter _)))
    rw [validSamples_filter]
    rfl

/-- Witness for the amended C8 theorem: a scalar-`y` point is dropped, a
missing-`y` point is kept as (0, 0). -/
theorem c8_drop_semantics_witness :
    parsePoint ⟨5, some (.scalar (some 7))⟩ = none ∧
    parsePoint ⟨5, none⟩ = some ⟨5, 0, 0⟩ := by
  refine ⟨(c8_drop_semantics ⟨5, some (.scalar (some 7))⟩ [] 0).1.2 (Or.inl ⟨some 7, rfl⟩), ?_⟩
  exact (c8_drop_semantics ⟨5, none⟩ [] 0).2.1 rfl

/-- The rule tag of a breach record. -/
inductive Rule where
  | MAX_LOSS_LIMIT
  | DAILY_LOSS_LIMIT
  | DAILY_DRAWDOWN
  | INACTIVITY
deriving DecidableEq

/-- Evaluation status (`STATUS_ACTIVE`, `STATUS_BREACHED`, `STATUS_UNDER_REVIEW`). -/
inductive Status where
  | ACTIVE
  | BREACHED
  | UNDER_REVIEW
deriving DecidableEq

/-- A breach record as appended by `_evaluate_account`; `extra` holds the
rule-specific extra number (`reference_value` for daily-loss, `peak_equity`
for daily-drawdown); the human-readable `message` string is omitted. -/
structure Breach where
  rule : Rule
  severity : String
  observed : ℚ
  threshold : ℚ
  breachDate : Option Int
  extra : Option ℚ
deriving DecidableEq

/-- One entry of the `RULES` catalog (the `leverage` label is display-only and
omitted). -/
structure Rules where
  profit_target : ℚ
  max_loss_limit : ℚ
  daily_loss_limit : ℚ
  min_profitable_days : Nat
  max_inactivity_days : Nat
deriving DecidableEq

def RULES_2_STEP_PHASE_1 : Rules := ⟨8/100, 8/100, 4/100, 3, 14⟩

def RULES_2_STEP_PHASE_2 : Rules := ⟨5/100, 8/100, 4/100, 3, 14⟩

def RULES_1_STEP : Rules := ⟨10/100, 6/100, 3/100, 3, 14⟩

/-- `pt.get("y", [0, 0])[0]` as read by the max-loss block (total on
well-formed points; on a scalar `y`, a too-short list or a null entry, Python
would raise instead of using the defaults below). -/
def y0 (p : RawPoint) : ℚ :=
  match p.y with
  | none => 0
  | some (.arr l) => (l.getD 0 none).getD 0
  | some (.scalar v) => v.getD 0

/-- `pt.get("y", [0, 0])[1]` as read by the max-loss block. -/
def y1 (p : RawPoint) : ℚ :=
  match p.y with
  | none => 0
  | some (.arr l) => (l.getD 1 none).getD 0
  | some (.scalar v) => v.getD 0

/-- The max-loss block of `_evaluate_account`: it runs only when
`initial_balance > 0`; `worst = min(min_balance, min_equity)` over the raw
chart (the current balance/equity are `min`'s defaults on an empty chart),
threshold `initial_balance * (1 - max_loss_limit)`. -/
def maxLossRecords (chart : List RawPoint) (initial curBal curEq limit : ℚ) : List Breach :=
  if 0 < initial then
    if min (pyMin (chart.map y0) curBal) (pyMin (chart.map y1) curEq)
        < initial * (1 - limit) then
      [⟨.MAX_LOSS_LIMIT, "critical",
        min (pyMin (chart.map y0) curBal) (pyMin (chart.map y1) curEq),
        initial * (1 - limit), none, none⟩]
    else []
  else []

/-- The daily-loss record appended by `_evaluate_account` on a breach
(`details.get(...)` with default 0). -/
def dlRecords (res : Bool × Option DLBreach) : List Breach :=
  if res.1 then
    [⟨.DAILY_LOSS_LIMIT, "critical",
      (res.2.map DLBreach.worstValue).getD 0,
      (res.2.map DLBreach.threshold).getD 0,
      res.2.map DLBreach.breachDate,
      res.2.map DLBreach.referenceValue⟩]
  else []

/-- The daily-drawdown record appended by `_evaluate_account` on a breach. -/
def ddRecords (res : Bool × Option DDBreach) : List Breach :=
  if res.1 then
    [⟨.DAILY_DRAWDOWN, "critical",
      (res.2.map DDBreach.equityAtBreach).getD 0,
      (res.2.map DDBreach.threshold).getD 0,
      res.2.map DDBreach.breachDate,
      res.2.map DDBreach.peakEquity⟩]
  else []

/-- The inactivity record appended by `_evaluate_account` on a breach
(observed = consecutive flat days, threshold = the day limit). -/
def inactRecords (res : Bool × Nat) (maxDays : Nat) : List Breach :=
  if res.1 then
    [⟨.INACTIVITY, "critical", (res.2 : ℚ), (maxDays : ℚ), none, none⟩]
  else []

/-- `day_net`: sum of the numeric components of one `profitDaily.chart` entry
(`none` models a non-numeric component, skipped by the isinstance check). -/
def sumNums (e : List (Option ℚ)) : ℚ := (e.filterMap id).foldl (· + ·) 0

/-- `_count_profitable_days`: days whose net profit reaches 1.5% of the
initial balance; 0 when the initial balance is falsy or non-positive. -/
def countProfitableDays (entries : List (List (Option ℚ))) (initial : ℚ) : Nat :=
  if initial ≤ 0 then 0
  else (entries.filter (fun e => decide (initial * (15/1000) ≤ sumNums e))).length

/-- The metrics sub-dictionary of the evaluation (the entries the claims
touch; the remaining entries are display-only copies of detail fields). -/
structure Metrics where
  initial_balance : ℚ
  current_balance : ℚ
  current_equity : ℚ
  worst_balance_or_equity : Option ℚ
  profit_percent : Option ℚ
  profit_target_hit : Bool
  profitable_days : Nat
  consecutive_inactive_days : Nat
  daily_loss_breached : Bool
  daily_dd_breached : Bool
deriving DecidableEq

/-- The evaluation dictionary returned by `_evaluate_account` (program,
rulesApplied, evaluatedAt and credentialKey are configuration echoes and
omitted). -/
structure Evaluation where
  status : Status
  isBreached : Bool
  breaches : List Breach
  breachReasons : List Rule
  metrics : Metrics
deriving DecidableEq

/-- `_evaluate_account`, after program inference picked `rules`: run the four
checks in order max-loss, daily-loss, daily-drawdown, inactivity, concatenate
the triggered records, then derive the status. -/
def evaluate (rules : Rules) (initial curBal curEq : ℚ) (chart : List RawPoint)
    (profitDaily : List (List (Option ℚ))) : Evaluation :=
  let mlRecs := maxLossRecords chart initial curBal curEq rules.max_loss_limit
  let dlRes := checkDailyLossLimit chart rules.daily_loss_limit (some initial)
  let ddRes := checkDailyDrawdown chart rules.daily_loss_limit (some initial)
  let inRes := checkInactivity chart rules.max_inactivity_days
  let breaches :=
    mlRecs ++ dlRecords dlRes ++ ddRecords ddRes ++ inactRecords inRes rules.max_inactivity_days
  let profitableDays := countProfitableDays profitDaily initial
  let profitTargetHit :=
    if 0 < initial then decide (rules.profit_target ≤ (curEq - initial) / initial) else false
  { status :=
      if breaches ≠ [] then Status.BREACHED
      else if profitTargetHit = true ∧ rules.min_profitable_days ≤ profitableDays then
        Status.UNDER_REVIEW
      else Status.ACTIVE
    isBreached := decide (breaches ≠ [])
    breaches := breaches
    breachReasons := breaches.map Breach.rule
    metrics :=
      { initial_balance := initial
        current_balance := curBal
        current_equity := curEq
        worst_balance_or_equity :=
          if 0 < initial then some (pyMin (chart.map y0) curBal) else none
        profit_percent := if 0 < initial then some ((curEq - initial) / initial) else none
        profit_target_hit := profitTargetHit
        profitable_days := profitableDays
        consecutive_inactive_days := inRes.2
        daily_loss_breached := dlRes.1
        daily_dd_breached := ddRes.1 } }

theorem rule_of_mem_maxLossRecords {b : Breach} {chart : List RawPoint}
    {initial curBal curEq limit : ℚ}
    (h : b ∈ maxLossRecords chart initial curBal curEq limit) :
    b.rule = Rule.MAX_LOSS_LIMIT := by
  unfold maxLossRecords at h
  split_ifs at h
  · obtain rfl := List.mem_singleton.1 h
    rfl
  · cases h
  · cases h

theorem rule_of_mem_dlRecords {b : Breach} {res : Bool × Option DLBreach}
    (h : b ∈ dlRecords res) : b.rule = Rule.DAILY_LOSS_LIMIT := by
  unfold dlRecords at h
  split_ifs at h
  · obtain rfl := List.mem_singleton.1 h
    rfl
  · cases h

theorem rule_of_mem_ddRecords {b : Breach} {res : Bool × Option DDBreach}
    (h : b ∈ ddRecords res) : b.rule = Rule.DAILY_DRAWDOWN := by
  unfold ddRecords at h
  split_ifs at h
  · obtain rfl := List.mem_singleton.1 h
    rfl
  · cases h

theorem rule_of_mem_inactRecords {b : Breach} {res : Bool × Nat} {maxDays : Nat}
    (h : b ∈ inactRecords res maxDays) : b.rule = Rule.INACTIVITY := by
  unfold inactRecords at h
  split_ifs at h
  · obtain rfl := List.mem_singleton.1 h
    rfl
  · cases h

/-- The C3 input: one day in which the balance dips to 95000 while equity
stays at 100000 — only the daily-loss-limit check triggers. -/
def c3Chart : List RawPoint :=
  [⟨0, some (.arr [some 100000, some 100000])⟩,
   ⟨3600, some (.arr [some 95000, some 100000])⟩,
   ⟨7200, some (.arr [some 100000, some 100000])⟩]

/-- Claim C3 is false as stated: a detector reports a breach (status-wise the
evaluation is BREACHED with `isBreached = true`), yet the breach list is
`[DAILY_LOSS_LIMIT]` — a fourth rule the claim's enum
{MAX_LOSS_LIMIT, DAILY_DRAWDOWN, INACTIVITY} does not contain, produced by
the daily-loss-limit check the claim's detector order omits. -/
theorem c3_counterexample :
    (evaluate RULES_2_STEP_PHASE_1 100000 100000 100000 c3Chart []).isBreached = true ∧
    (evaluate RULES_2_STEP_PHASE_1 100000 100000 100000 c3Chart []).breachReasons =
      [Rule.DAILY_LOSS_LIMIT] ∧
    Rule.DAILY_LOSS_LIMIT ∉ [Rule.MAX_LOSS_LIMIT, Rule.DAILY_DRAWDOWN, Rule.INACTIVITY] := by
  decide

/-- Claim C3 (amended): whenever at least one of the four checks reports a
breach, the status is BREACHED with `isBreached = true`, and the breach list
is exactly the concatenation of the triggered records in the order max-loss,
daily-loss-limit, daily-drawdown, inactivity, every record's rule drawn from
{MAX_LOSS_LIMIT, DAILY_LOSS_LIMIT, DAILY_DRAWDOWN, INACTIVITY}. -/
theorem c3_breach_aggregation (rules : Rules) (initial curBal curEq : ℚ)
    (chart : List RawPoint) (pd : List (List (Option ℚ)))
    (_hwf : ∀ p ∈ chart, wfPoint p = true)
    (h : (evaluate rules initial curBal curEq chart pd).breaches ≠ []) :
    (evaluate rules initial curBal curEq chart pd).status = Status.BREACHED ∧
    (evaluate rules initial curBal curEq chart pd).isBreached = true ∧
    (evaluate rules initial curBal curEq chart pd).breaches =
      maxLossRecords chart initial curBal curEq rules.max_loss_limit ++
      dlRecords (checkDailyLossLimit chart rules.daily_loss_limit (some initial)) ++
      ddRecords (checkDailyDrawdown chart rules.daily_loss_limit (some initial)) ++
      inactRecords (checkInactivity chart rules.max_inactivity_days)
        rules.max_inactivity_days ∧
    ∀ b ∈ (evaluate rules initial curBal curEq chart pd).breaches,
      b.rule = Rule.MAX_LOSS_LIMIT ∨ b.rule = Rule.DAILY_LOSS_LIMIT ∨
      b.rule = Rule.DAILY_DRAWDOWN ∨ b.rule = Rule.INACTIVITY := by
  simp only [evaluate] at h ⊢
  refine ⟨by rw [if_pos h], by rw [decide_eq_true h], trivial, ?_⟩
  intro b hb
  rcases List.mem_append.1 hb with hb123 | hb4
  · rcases List.mem_append.1 hb123 with hb12 | hb3
    · rcases List.mem_append.1 hb12 with hb1 | hb2
      · exact Or.inl (rule_of_mem_maxLossRecords hb1)
      · exact Or.inr (Or.inl (rule_of_mem_dlRecords hb2))
    · exact Or.inr (Or.inr (Or.inl (rule_of_mem_ddRecords hb3)))
  · exact Or.inr (Or.inr (Or.inr (rule_of_mem_inactRecords hb4)))

/-- Witness for the amended C3 theorem at the C3 input. -/
theorem c3_breach_aggregation_witness :
    (evaluate RULES_2_STEP_PHASE_1 100000 100000 100000 c3Chart []).status =
      Status.BREACHED ∧
    (evaluate RULES_2_STEP_PHASE_1 100000 100000 100000 c3Chart []).isBreached = true := by
  have h := c3_breach_aggregation RULES_2_STEP_PHASE_1 100000 100000 100000 c3Chart []
    (by decide) (by decide)
  exact ⟨h.1, h.2.1⟩

theorem foldl_min_lt_iff (t : List ℚ) : ∀ a c : ℚ,
    t.foldl min a < c ↔ a < c ∨ ∃ x ∈ t, x < c := by
  induction t with
  | nil => intro a c; simp
  | cons b t ih =>
      intro a c
      rw [List.foldl_cons, ih]
      constructor
      · rintro (hab | ⟨x, hx, hxc⟩)
        · rcases min_lt_iff.1 hab with h | h
          · exact Or.inl h
          · exact Or.inr ⟨b, List.mem_cons_self b t, h⟩
        · exact Or.inr ⟨x, List.mem_cons_of_mem b hx, hxc⟩
      · rintro (hac | ⟨x, hx, hxc⟩)
        · exact Or.inl (min_lt_iff.2 (Or.inl hac))
        · rcases List.mem_cons.1 hx with rfl | hx
          · exact Or.inl (min_lt_iff.2 (Or.inr hxc))
          · exact Or.inr ⟨x, hx, hxc⟩

theorem pyMin_lt_iff {l : List ℚ} (hne : l ≠ []) (d c : ℚ) :
    pyMin l d < c ↔ ∃ x ∈ l, x < c := by
  cases l with
  | nil => exact absurd rfl hne
  | cons a t =>
      show t.foldl min a < c ↔ _
      rw [foldl_min_lt_iff]
      constructor
      · rintro (h | ⟨x, hx, hc⟩)
        · exact ⟨a, List.mem_cons_self a t, h⟩
        · exact ⟨x, List.mem_cons_of_mem a hx, hc⟩
      · rintro ⟨x, hx, hc⟩
        rcases List.mem_cons.1 hx with rfl | hx
        · exact Or.inl hc
        · exact Or.inr ⟨x, hx, hc⟩

/-- Claim C7: with a positive initial balance and a nonempty chart of
well-formed points, the max-loss check reports a breach iff some sample of
the whole recorded history has `min(balance, equity)` strictly below
`initialBalance * (1 - maxLossLimit)` — equivalently, iff the lifetime
minimum of `min(balance, equity)` is below the threshold.  The check is
defined directly on the raw chart, independent of any day grouping. -/
theorem c7_max_loss_lifetime (chart : List RawPoint) (initial curBal curEq limit : ℚ)
    (hpos : 0 < initial) (hne : chart ≠ [])
    (_hwf : ∀ p ∈ chart, wfPoint p = true) :
    maxLossRecords chart initial curBal curEq limit ≠ [] ↔
      ∃ p ∈ chart, min (y0 p) (y1 p) < initial * (1 - limit) := by
  unfold maxLossRecords
  rw [if_pos hpos]
  have hmap0 : chart.map y0 ≠ [] := by simpa using hne
  have hmap1 : chart.map y1 ≠ [] := by simpa using hne
  by_cases hcond : min (pyMin (chart.map y0) curBal) (pyMin (chart.map y1) curEq)
      < initial * (1 - limit)
  · rw [if_pos hcond]
    refine iff_of_true (by simp) ?_
    rcases min_lt_iff.1 hcond with h | h
    · obtain ⟨x, hx, hxc⟩ := (pyMin_lt_iff hmap0 curBal _).1 h
      obtain ⟨p, hp, rfl⟩ := List.mem_map.1 hx
      exact ⟨p, hp, lt_of_le_of_lt (min_le_left _ _) hxc⟩
    · obtain ⟨x, hx, hxc⟩ := (pyMin_lt_iff hmap1 curEq _).1 h
      obtain ⟨p, hp, rfl⟩ := List.mem_map.1 hx
      exact ⟨p, hp, lt_of_le_of_lt (min_le_right _ _) hxc⟩
  · rw [if_neg hcond]
    refine iff_of_false (by simp) ?_
    rintro ⟨p, hp, hlt⟩
    apply hcond
    rcases min_lt_iff.1 hlt with h | h
    · exact min_lt_iff.2
        (Or.inl ((pyMin_lt_iff hmap0 curBal _).2 ⟨y0 p, List.mem_map_of_mem y0 hp, h⟩))
    · exact min_lt_iff.2
        (Or.inr ((pyMin_lt_iff hmap1 curEq _).2 ⟨y1 p, List.mem_map_of_mem y1 hp, h⟩))

/-- Scenario E of the spec: lifetime minimum equity 91000 against initial
balance 100000 and maxLossLimit 0.08 (threshold 92000). -/
def c7Chart : List RawPoint :=
  [⟨0, some (.arr [some 100000, some 100000])⟩,
   ⟨3600, some (.arr [some 100000, some 91000])⟩]

/-- Witness for C7 at scenario E: the breach fires. -/
theorem c7_max_loss_lifetime_witness :
    maxLossRecords c7Chart 100000 100000 100000 (8/100) ≠ [] := by
  refine (c7_max_loss_lifetime c7Chart 100000 100000 100000 (8/100)
    (by norm_num) (by decide) (by decide)).2 ?_
  exact ⟨⟨3600, some (.arr [some 100000, some 91000])⟩, by decide, by decide⟩

/-- Claim C9: with a non-positive initial balance the evaluation still returns
a complete result — the max-loss and profit-target computations are skipped
(worst metric and profit percent `none`, target `false`, no MAX_LOSS_LIMIT
record) while the daily-loss, daily-drawdown and inactivity detectors still
run and their outcomes are reported. -/
theorem c9_degenerate_initial_balance (rules : Rules) (initial curBal curEq : ℚ)
    (chart : List RawPoint) (pd : List (List (Option ℚ)))
    (_hwf : ∀ p ∈ chart, wfPoint p = true) (h : initial ≤ 0) :
    (evaluate rules initial curBal curEq chart pd).metrics.worst_balance_or_equity = none ∧
    (evaluate rules initial curBal curEq chart pd).metrics.profit_percent = none ∧
    (evaluate rules initial curBal curEq chart pd).metrics.profit_target_hit = false ∧
    (∀ b ∈ (evaluate rules initial curBal curEq chart pd).breaches,
      b.rule ≠ Rule.MAX_LOSS_LIMIT) ∧
    (evaluate rules initial curBal curEq chart pd).metrics.daily_loss_breached =
      (checkDailyLossLimit chart rules.daily_loss_limit (some initial)).1 ∧
    (evaluate rules initial curBal curEq chart pd).metrics.daily_dd_breached =
      (checkDailyDrawdown chart rules.daily_loss_limit (some initial)).1 ∧
    (evaluate rules initial curBal curEq chart pd).metrics.consecutive_inactive_days =
      (checkInactivity chart rules.max_inactivity_days).2 := by
  have hnot : ¬ (0 : ℚ) < initial := not_lt.2 h
  have hml : maxLossRecords chart initial curBal curEq rules.max_loss_limit = [] := by
    unfold maxLossRecords
    rw [if_neg hnot]
  simp only [evaluate]
  refine ⟨by rw [if_neg hnot], by rw [if_neg hnot], by rw [if_neg hnot], ?_,
    trivial, trivial, trivial⟩
  intro b hb
  rw [hml, List.nil_append] at hb
  rcases List.mem_append.1 hb with hb12 | hb4
  · rcases List.mem_append.1 hb12 with hb2 | hb3
    · rw [rule_of_mem_dlRecords hb2]
      exact fun hc => Rule.noConfusion hc
    · rw [rule_of_mem_ddRecords hb3]
      exact fun hc => Rule.noConfusion hc
  · rw [rule_of_mem_inactRecords hb4]
    exact fun hc => Rule.noConfusion hc

/-- Witness for C9 with initial balance 0 over a three-day chart. -/
theorem c9_degenerate_initial_balance_witness :
    (evaluate RULES_2_STEP_PHASE_1 0 5 5 c6Chart []).metrics.worst_balance_or_equity = none ∧
    (evaluate RULES_2_STEP_PHASE_1 0 5 5 c6Chart []).metrics.profit_target_hit = false := by
  have h := c9_degenerate_initial_balance RULES_2_STEP_PHASE_1 0 5 5 c6Chart []
    (by decide) (by norm_num)
  exact ⟨h.1, h.2.2.1⟩

/-- Claim C10: with a non-positive initial balance the profitable-day counter
returns 0 and the profit target stays unattained, so the evaluation status is
never UNDER_REVIEW — it is ACTIVE or BREACHED. -/
theorem c10_no_under_review (rules : Rules) (initial curBal curEq : ℚ)
    (chart : List RawPoint) (pd : List (List (Option ℚ)))
    (_hwf : ∀ p ∈ chart, wfPoint p = true) (h : initial ≤ 0) :
    countProfitableDays pd initial = 0 ∧
    (evaluate rules initial curBal curEq chart pd).metrics.profit_target_hit = false ∧
    (evaluate rules initial curBal curEq chart pd).status ≠ Status.UNDER_REVIEW ∧
    ((evaluate rules initial curBal curEq chart pd).status = Status.ACTIVE ∨
      (evaluate rules initial curBal curEq chart pd).status = Status.BREACHED) := by
  have hnot : ¬ (0 : ℚ) < initial := not_lt.2 h
  have hcount : countProfitableDays pd initial = 0 := by
    unfold countProfitableDays
    rw [if_pos h]
  simp only [evaluate]
  rw [if_neg hnot]
  refine ⟨hcount, rfl, ?_, ?_⟩
  · split_ifs with h1 h2
    · exact fun hc => Status.noConfusion hc
    · exact h2.1.elim
    · exact fun hc => Status.noConfusion hc
  · split_ifs with h1 h2
    · exact Or.inr rfl
    · exact h2.1.elim
    · exact Or.inl rfl

/-- Witness for C10 at initial balance 0 on an empty chart. -/
theorem c10_no_under_review_witness :
    (evaluate RULES_2_STEP_PHASE_1 0 5 5 [] []).status ≠ Status.UNDER_REVIEW := by
  exact (c10_no_under_review RULES_2_STEP_PHASE_1 0 5 5 [] []
    (by decide) (by norm_num)).2.2.1

end MT5
